import Mathlib

/-!
Verification development for the REIMU RV32I toolchain and simulator.

The definitions below are a shallow embedding of the C++ sources:
 - `include/linker/evaluate.h`   (immediate evaluator of the linker)
 - `include/assembly/helper.h`   (line-splitting helpers of the assembler)
 - `src/interpreter/backend.cpp` (top-level simulation loop)
 - `src/interpreter/command.cpp` (disassembler used by the debug facility)
 - `src/interpreter/interpreter.cpp` (post-link overlap check)
 - `src/main.cpp`                (outer driver and exit code)

Machine integers are modelled as `Nat` with explicit reductions modulo
`2 ^ 32` (`target_size_t`, `command_size_t`) and `2 ^ 64` (`std::size_t`)
at the points where the C++ types force a conversion or a wrap-around.
Fallible code (`panic`, `runtime_assert`, thrown exceptions) is modelled
with `Except`.
-/

namespace REIMU

/-! ## Immediate data model (spec section 3, linker/evaluate.h)

The C++ source uses an abstract `ImmediateBase` hierarchy with
`dynamic_cast` dispatch; following the spec's design note (section 9) we
embed it as a tagged variant with the constructor names of the concrete
C++ classes. -/

/-- Operand tag of `RelImmediate` (relocation-modified wrapper). -/
inductive RelOperand where
  | HI
  | LO
  | PCREL_HI
  | PCREL_LO
deriving DecidableEq, Repr

/-- Operator carried by an element of a `TreeImmediate`. -/
inductive TreeOperator where
  | ADD
  | SUB
  | END
deriving DecidableEq, Repr

/-- Immediate values: literal, symbol reference, relocation wrapper, or a
flat left-fold tree (spec section 3). -/
inductive ImmediateBase where
  | IntImmediate (data : Nat)
  | StrImmediate (data : String)
  | RelImmediate (operand : RelOperand) (imm : ImmediateBase)
  | TreeImmediate (data : List (ImmediateBase × TreeOperator))

/-- Errors raised while linking: `panic` on an unknown symbol
(`Evaluator::get_symbol_position`), `runtime_assert` failures inside the
evaluator, and the `panic` when `main` is absent from the position table
(`Interpreter::Interpreter`). -/
inductive LinkError where
  | unknownSymbol (name : String)
  | assertFail
  | noMainFunction
deriving DecidableEq, Repr

/-- Symbol tables (`Linker::_Symbol_Table_t`) map a symbol name to the
location recorded for the symbol; modelled as an association list with
first-match lookup. -/
abbrev SymbolTable := List (String × Nat)

/-- Embedding of `Evaluator::get_symbol_position` (linker/evaluate.h): query the local
table of the current file first, then the global table; `panic` with an
unknown-symbol message when both lookups miss. -/
def get_symbol_position (local_table global_table : SymbolTable) (str : String) :
    Except LinkError Nat :=
  match local_table.lookup str with
  | some loc => .ok loc
  | none =>
    match global_table.lookup str with
    | some loc => .ok loc
    | none => .error (.unknownSymbol str)

/-- Wrap-around subtraction of 32-bit unsigned values (`target_size_t`):
both `+=` and `-=` in `evaluate_tree` act on `target_size_t`. -/
def sub32 (a b : Nat) : Nat := (a + (2 ^ 32 - b % 2 ^ 32)) % 2 ^ 32

/-- Wrap-around subtraction at `std::size_t` width: in
`value - this->position` the 32-bit `value` is promoted to the 64-bit
`std::size_t` of `position`, so the difference wraps modulo `2 ^ 64`. -/
def sub64 (a b : Nat) : Nat := (a % 2 ^ 64 + (2 ^ 64 - b % 2 ^ 64)) % 2 ^ 64

/-- Modelled from the spec: `split_lo_hi` is declared in a utility header
that is not among the visible sources.  Spec section 4.2 gives its `hi`
half as `(v + 0x800) >> 12` (as a 32-bit value). -/
def split_lo_hi_hi (value : Nat) : Nat := ((value + 0x800) % 2 ^ 32) >>> 12

/-- Modelled from the spec: the `lo` half of `split_lo_hi` is the
sign-extension of the low 12 bits of `v`, as a 32-bit pattern. -/
def split_lo_hi_lo (value : Nat) : Nat :=
  if value &&& 0x800 = 0 then value &&& 0xFFF else (value &&& 0xFFF) ||| 0xFFFFF000

mutual

/-- Embedding of `Evaluator::evaluate_tree` (linker/evaluate.h), with the loop state
made explicit: `last_op` starts as `ADD` and `result` as `0`; each element
first evaluates its sub-immediate, then applies the *previous* operator to
the accumulator (`runtime_assert(false)` when that operator is `END`), and
finally the loop checks `runtime_assert(last_op == END)`. -/
def evaluate_tree_go (local_table global_table : SymbolTable) (position : Nat)
    (elems : List (ImmediateBase × TreeOperator)) (last_op : TreeOperator)
    (result : Nat) : Except LinkError Nat :=
  match elems with
  | [] => if last_op = .END then .ok result else .error .assertFail
  | (sub, op) :: rest =>
    match evaluate local_table global_table position sub with
    | .error e => .error e
    | .ok value =>
      match last_op with
      | .ADD =>
        evaluate_tree_go local_table global_table position rest op
          ((result + value) % 2 ^ 32)
      | .SUB =>
        evaluate_tree_go local_table global_table position rest op
          (sub32 result value)
      | .END => .error .assertFail

/-- Embedding of `Evaluator::evaluate` (linker/evaluate.h).  The four `dynamic_cast`
branches become a `match`; every branch returns a `target_size_t`, so each
result is reduced modulo `2 ^ 32`.  Note that `PCREL_HI` is
`(value - position) >> 12` with *no* `+0x800` bias, and `PCREL_LO` is
`(value - position) & 0xFFF` with *no* sign extension, both computed at
`std::size_t` width before the return-type truncation. -/
def evaluate (local_table global_table : SymbolTable) (position : Nat)
    (imm : ImmediateBase) : Except LinkError Nat :=
  match imm with
  | .IntImmediate data => .ok (data % 2 ^ 32)
  | .StrImmediate data =>
    match get_symbol_position local_table global_table data with
    | .ok loc => .ok (loc % 2 ^ 32)
    | .error e => .error e
  | .RelImmediate operand inner =>
    match evaluate local_table global_table position inner with
    | .error e => .error e
    | .ok value =>
      match operand with
      | .HI => .ok (split_lo_hi_hi value)
      | .LO => .ok (split_lo_hi_lo value)
      | .PCREL_HI => .ok ((sub64 value position >>> 12) % 2 ^ 32)
      | .PCREL_LO => .ok (sub64 value position &&& 0xFFF)
  | .TreeImmediate data => evaluate_tree_go local_table global_table position data .ADD 0

end

/-- The function `Evaluator::evaluate` applied to a whole `TreeImmediate` list, i.e.
the entry point of `evaluate_tree` with its initial state. -/
def evaluate_tree (local_table global_table : SymbolTable) (position : Nat)
    (elems : List (ImmediateBase × TreeOperator)) : Except LinkError Nat :=
  evaluate_tree_go local_table global_table position elems .ADD 0

/-- Claim-side step of the tree fold (spec section 4.2): one element
contributes plus or minus its value according to the operator preceding
it, at 32-bit width. -/
def tree_step (acc : Nat) (p : TreeOperator × Nat) : Nat :=
  match p.1 with
  | .ADD => (acc + p.2) % 2 ^ 32
  | .SUB => sub32 acc p.2
  | .END => acc

/-- Claim-side description of the tree fold (spec section 4.2): pair each
element's value with the operator *preceding* it (implicitly `ADD` for the
first element) and fold left starting from `0`, adding or subtracting at
32-bit width. -/
def tree_fold (signs : List TreeOperator) (values : List Nat) : Nat :=
  (List.zip signs values).foldl tree_step 0

/-! ## Assembler line helpers (assembly/helper.h)

`std::string_view` slices are modelled as `List Char`; `FailToParse` is an
error value carrying the formatted message. -/

/-- The `FailToParse` assembler parse error. -/
inductive AsmError where
  | failToParse (msg : String)
deriving DecidableEq, Repr

/-- Embedding of `std::isspace` in the default C locale: space, `\t`, `\n`, vertical
tab, form feed, `\r`. -/
def cpp_isspace (c : Char) : Bool :=
  c = ' ' || c = '\t' || c = '\n' || c = Char.ofNat 11 || c = Char.ofNat 12 || c = '\r'

/-- Embedding of `is_label_char`: alphanumeric or one of `_`, `.`, `@`. -/
def is_label_char (c : Char) : Bool :=
  c.isAlphanum || c = '_' || c = '.' || c = '@'

/-- Embedding of `remove_front_whitespace`: pop characters from the front while they
are whitespace. -/
def remove_front_whitespace : List Char → List Char
  | [] => []
  | c :: cs => if cpp_isspace c then remove_front_whitespace cs else c :: cs

/-- Embedding of `remove_back_whitespace`: pop characters from the back while they are
whitespace. -/
def remove_back_whitespace : List Char → List Char
  | [] => []
  | c :: cs =>
    match remove_back_whitespace cs with
    | [] => if cpp_isspace c then [] else [c]
    | r => c :: r

/-- Embedding of `contain_no_token`: after stripping leading whitespace the remainder
is empty or starts a comment. -/
def contain_no_token (str : List Char) : Bool :=
  match remove_front_whitespace str with
  | [] => true
  | c :: _ => c = '#'

/-- Embedding of `is_valid_label`: every character is a label character
(`find_if_not` reaching the end). -/
def is_valid_label (str : List Char) : Bool :=
  str.all is_label_char

/-- Embedding of `std::string_view::find_first_of` for a single needle character:
index of the first occurrence, `none` standing for `npos`. -/
def find_first_of (c : Char) : List Char → Option Nat
  | [] => none
  | d :: ds => if d = c then some 0 else (find_first_of c ds).map (· + 1)

/-- Embedding of `start_with_label`: when the first `:` precedes any `"`, the text
before the `:` must be a valid label and nothing but whitespace or a
comment may follow; otherwise the line carries no label. -/
def start_with_label (str : List Char) : Except AsmError (Option (List Char)) :=
  let pos1 := find_first_of '\"' str
  let pos2 := find_first_of ':' str
  match pos2 with
  | none => .ok none
  | some p2 =>
    if (match pos1 with | none => true | some p1 => p2 < p1) then
      let label := str.take p2
      let rest := str.drop (p2 + 1)
      if ¬ is_valid_label label then
        .error (.failToParse ("Invalid label: " ++ String.mk label))
      else if ¬ contain_no_token rest then
        .error (.failToParse "Unexpected token after label")
      else .ok (some label)
    else .ok none

/-- Embedding of `remove_comments_when_no_string`: reject a remainder containing `"`
(`throw_if` with an empty message), then cut at the first `#`. -/
def remove_comments_when_no_string (str : List Char) : Except AsmError (List Char) :=
  if '\"' ∈ str then .error (.failToParse "")
  else .ok (str.takeWhile (fun c => c ≠ '#'))

/-- Loop body of `split_command` for `N ≥ 2`, with `slots` counting the
tokens still to cut off before the final one: each round finds the first
`,`, stores the back-trimmed piece before it, front-trims what follows,
and the final slot takes the whole remaining string back-trimmed;
running out of commas throws `Too few arguments`. -/
def split_command_go : Nat → List Char → Except AsmError (List (List Char))
  | 0, str => .ok [remove_back_whitespace str]
  | slots + 1, str =>
    match find_first_of ',' str with
    | none => .error (.failToParse "Too few arguments")
    | some pos =>
      match split_command_go slots (remove_front_whitespace (str.drop (pos + 1))) with
      | .error e => .error e
      | .ok rest => .ok (remove_back_whitespace (str.take pos) :: rest)

/-- Embedding of `split_command<N>` (assembly/helper.h): `N = 0` only checks that the
remainder holds no token; otherwise comments are stripped (rejecting
lines with `"`), the remainder is front-trimmed, and for `N = 1` the
whole trimmed remainder is the single token, while for `N ≥ 2` the loop
cuts at the first `N - 1` commas. -/
def split_command (n : Nat) (str : List Char) : Except AsmError (List (List Char)) :=
  match n with
  | 0 => if contain_no_token str then .ok [] else .error (.failToParse "")
  | 1 =>
    match remove_comments_when_no_string str with
    | .error e => .error e
    | .ok s => .ok [remove_back_whitespace (remove_front_whitespace s)]
  | n + 2 =>
    match remove_comments_when_no_string str with
    | .error e => .error e
    | .ok s => split_command_go (n + 1) (remove_front_whitespace s)

/-- Claim-side description of the comma-separated pieces of a remainder
(spec section 4.1): with `slots` commas still to cut, the next token is
the text before the first comma, back-trimmed; the split continues after
that comma, front-trimmed; and the final slot takes the whole remaining
text back-trimmed. -/
def comma_tokens : Nat → List Char → List (List Char)
  | 0, s => [remove_back_whitespace s]
  | slots + 1, s =>
    remove_back_whitespace (s.takeWhile (fun c => c ≠ ',')) ::
      comma_tokens slots
        (remove_front_whitespace ((s.dropWhile (fun c => c ≠ ',')).drop 1))

/-! ## Interpreter exception taxonomy (interpreter/exception.h) -/

/-- The `Error` enumeration of interpreter trap kinds. -/
inductive InterpError where
  | LoadMisAligned
  | LoadOutOfBound
  | StoreMisAligned
  | StoreOutOfBound
  | InsMisAligned
  | InsOutOfBound
  | InsUnknown
  | LibcMisAligned
  | LibcOutOfBound
  | LibcError
  | DivideByZero
  | NotImplemented
deriving DecidableEq, Repr

/-- Payload union of `FailToInterpret`: either an address together with a
command word / alignment / size, or a plain message. -/
inductive TrapInfo where
  | addressed (address : Nat) (info : Nat)
  | message (msg : String)
deriving DecidableEq, Repr

/-- Embedding of `FailToInterpret` (interpreter/exception.h): an `Error` kind, the libc
index (`kLibcDummy` when unused, modelled as `none`), and the payload. -/
structure FailToInterpret where
  error : InterpError
  libc_which : Option Nat
  info : TrapInfo
deriving DecidableEq, Repr

/-! ## Top-level simulation loop (src/interpreter/backend.cpp)

`simulate_normal` is parametric in the machine: `adv` models
`rf.advance()` (which may update hidden register-file state) and `exec`
models one `icache.ifetch` plus executor application, which either
produces the next machine state or throws `FailToInterpret`.  The
`timeout` counter is a `std::size_t`, so the post-decrement in
`timeout --> 0` wraps modulo `2 ^ 64` when `timeout` is `0`, and the
final `panic_if(timeout + 1 == 0, "Time Limit Exceeded")` tests the
wrapped value. -/

/-- Outcome of a simulation run: clean loop exit, the
`Time Limit Exceeded` panic, or a fatal `FailToInterpret` trap
(re-raised by the `catch` block as a panic). -/
inductive SimOutcome where
  | clean
  | tle
  | trap (e : FailToInterpret)
deriving DecidableEq, Repr

/-- Result of `simulate_normal`: how many instructions were retired and
whether the run ended cleanly, timed out, or trapped. -/
structure SimResult where
  retired : Nat
  outcome : SimOutcome
deriving DecidableEq, Repr

/-- Code after the `while` loop of `simulate_normal`:
`panic_if(timeout + 1 == 0, "Time Limit Exceeded")` on the exit value of
the (wrapping) `std::size_t` counter. -/
def sim_epilogue (retired : Nat) (timeout_after : Nat) : SimResult :=
  if (timeout_after + 1) % 2 ^ 64 = 0 then ⟨retired, .tle⟩ else ⟨retired, .clean⟩

/-- The `while (rf.advance() && timeout --> 0)` loop of
`simulate_normal`.  When `advance` yields `false` the counter is left
untouched (short-circuit); when it yields `true` and the counter is `0`
the post-decrement wraps the counter to `2 ^ 64 - 1` and the loop exits;
otherwise the counter drops by one and the loop body retires one
instruction (or the run aborts on a trap). -/
def sim_loop {S : Type} (adv : S → Bool × S) (exec : S → Except FailToInterpret S)
    (s : S) (timeout : Nat) (retired : Nat) : SimResult :=
  match adv s with
  | (false, _) => sim_epilogue retired timeout
  | (true, s') =>
    match timeout with
    | 0 => sim_epilogue retired ((timeout + (2 ^ 64 - 1)) % 2 ^ 64)
    | t + 1 =>
      match exec s' with
      | .ok s'' => sim_loop adv exec s'' t (retired + 1)
      | .error e => ⟨retired, .trap e⟩

/-- Embedding of `simulate_normal` (backend.cpp): run the fetch/execute loop with the
configured timeout, starting with no instruction retired. -/
def simulate_normal {S : Type} (adv : S → Bool × S)
    (exec : S → Except FailToInterpret S) (s : S) (timeout : Nat) : SimResult :=
  sim_loop adv exec s timeout 0

/-- Claim-side helper: `free_steps adv exec s n` is the machine state
after `n` loop iterations in which every `advance` call answered `true`
and no instruction trapped, or `none` when the run cannot proceed that
far unhindered. -/
def free_steps {S : Type} (adv : S → Bool × S) (exec : S → Except FailToInterpret S) :
    S → Nat → Option S
  | s, 0 => some s
  | s, n + 1 =>
    match adv s with
    | (false, _) => none
    | (true, s') =>
      match exec s' with
      | .ok s'' => free_steps adv exec s'' n
      | .error _ => none

/-! ## Outer driver (src/main.cpp)

`main` runs configuration parsing, assembling, linking and simulation
inside a `try` block; a `PanicError` is caught and deliberately ignored
(`// do nothing, just as expected`), after which control falls through to
the single `return 0` statement. -/

/-- The `PanicError` sentinel thrown by `panic` (utility/error.h, outside
the visible sources), carrying the formatted panic message. -/
structure PanicError where
  message : String
deriving DecidableEq, Repr

/-- Exit code of `main` (src/main.cpp) as a function of the pipeline
outcome: both the normal path and the caught-`PanicError` path reach
`return 0`.  (A non-`PanicError` exception would instead reach
`dark::unreachable`, the internal-bug handler, and never return.) -/
def main_exit_code (pipeline : Except PanicError Unit) : Nat :=
  match pipeline with
  | .ok _ => 0
  | .error _ => 0

/-! ## Post-link section layout check (src/interpreter/interpreter.cpp) -/

/-- A section of `Linker::LinkResult`: a base address and its byte
storage. -/
structure LinkSection where
  start : Nat
  storage : List Nat

/-- Embedding of `get_start_end`: the half-open address range of a section. -/
def get_start_end (s : LinkSection) : Nat × Nat :=
  (s.start, s.start + s.storage.length)

/-- The fields of `Linker::LinkResult` used by the interpreter
constructor: the four sections in canonical order and the position
table. -/
structure LinkResult where
  text : LinkSection
  data : LinkSection
  rodata : LinkSection
  bss : LinkSection
  position_table : List (String × Nat)

/-- Embedding of `check_no_overlap` (interpreter.cpp): `runtime_assert` that the end
of each section does not pass the start of the next one in the order
text, data, rodata, bss. -/
def check_no_overlap (result : LinkResult) : Except LinkError Unit :=
  let (_, text_end) := get_start_end result.text
  let (data_start, data_end) := get_start_end result.data
  let (rodata_start, rodata_end) := get_start_end result.rodata
  let (bss_start, _) := get_start_end result.bss
  if text_end ≤ data_start ∧ data_end ≤ rodata_start ∧ rodata_end ≤ bss_start then
    .ok ()
  else .error .assertFail

/-- Embedding of `Interpreter::Interpreter` (interpreter.cpp) after linking:
`panic_if` when `main` is missing from the position table, then
`check_no_overlap`. -/
def interpreter_construct (result : LinkResult) : Except LinkError Unit :=
  if result.position_table.lookup "main" = none then .error .noMainFunction
  else check_no_overlap result

/-! ## Disassembler (src/interpreter/command.cpp)

The field extractors and encoding constants live in `riscv/command.h`,
which is not among the visible sources; they are modelled from the spec
(section 4.3 and the glossary: canonical RV32I encodings).  Register
pretty-printing (`int_to_reg` / `reg_to_sv`) is likewise external, so the
pretty printers are parametric in a register-name function `regname`;
none of the verified claims depends on the concrete names. -/

/-- Modelled from the spec: `command::get_opcode`, the low 7 bits of the
32-bit instruction word (standard RV32I). -/
def get_opcode (cmd : Nat) : Nat := cmd &&& 0x7F

/-- Modelled from the spec: the `funct3` field, bits 14..12. -/
def get_funct3 (cmd : Nat) : Nat := (cmd >>> 12) &&& 0x7

/-- Modelled from the spec: the `funct7` field, bits 31..25
(`command::get_funct7`). -/
def get_funct7 (cmd : Nat) : Nat := (cmd >>> 25) &&& 0x7F

/-- Modelled from the spec: the `rd` field, bits 11..7. -/
def get_rd (cmd : Nat) : Nat := (cmd >>> 7) &&& 0x1F

/-- Modelled from the spec: the `rs1` field, bits 19..15. -/
def get_rs1 (cmd : Nat) : Nat := (cmd >>> 15) &&& 0x1F

/-- Modelled from the spec: the `rs2` field, bits 24..20. -/
def get_rs2 (cmd : Nat) : Nat := (cmd >>> 20) &&& 0x1F

/-- Sign extension of the `w`-bit pattern `n` to a mathematical
integer. -/
def sext (w : Nat) (n : Nat) : Int :=
  if n &&& 2 ^ (w - 1) = 0 then (n : Int) else (n : Int) - 2 ^ w

/-- Modelled from the spec: `i_type::get_imm`, the sign-extended 12-bit
immediate in bits 31..20. -/
def i_type_imm (cmd : Nat) : Int := sext 12 (cmd >>> 20)

/-- Modelled from the spec: `s_type::get_imm`, the sign-extended 12-bit
store offset split across bits 31..25 and 11..7. -/
def s_type_imm (cmd : Nat) : Int :=
  sext 12 (((cmd >>> 25) &&& 0x7F) <<< 5 ||| ((cmd >>> 7) &&& 0x1F))

/-- Modelled from the spec: `b_type::get_imm`, the sign-extended 13-bit
branch displacement. -/
def b_type_imm (cmd : Nat) : Int :=
  sext 13 (((cmd >>> 31) &&& 0x1) <<< 12 ||| ((cmd >>> 7) &&& 0x1) <<< 11 |||
    ((cmd >>> 25) &&& 0x3F) <<< 5 ||| ((cmd >>> 8) &&& 0xF) <<< 1)

/-- Modelled from the spec: `jal::get_imm`, the sign-extended 21-bit jump
displacement. -/
def jal_imm (cmd : Nat) : Int :=
  sext 21 (((cmd >>> 31) &&& 0x1) <<< 20 ||| ((cmd >>> 12) &&& 0xFF) <<< 12 |||
    ((cmd >>> 20) &&& 0x1) <<< 11 ||| ((cmd >>> 21) &&& 0x3FF) <<< 1)

/-- Modelled from the spec: `lui::get_imm` / `auipc::get_imm`, the upper
immediate shifted into place (spec: `rd = imm << 12`), as a signed 32-bit
value. -/
def u_type_imm (cmd : Nat) : Int := sext 32 (cmd &&& 0xFFFFF000)

/-- Hexadecimal digit string of `n` as produced by `std::format` with the
`x` presentation (lowercase, no leading zeros, `0` for zero). -/
def cpp_hex_digits (n : Nat) : String := (Nat.toDigits 16 n).asString

/-- Embedding of `default_format` (command.cpp): the format string is `0x` followed by
the *alternate-form* hex conversion, and the alternate form prepends its
own `0x`, so the rendered text carries the prefix twice. -/
def default_format (cmd : Nat) : String := "0x" ++ ("0x" ++ cpp_hex_digits cmd)

/-- Embedding of `pretty_r_type` (command.cpp): dispatch on
`join(funct7, funct3) = (funct7 << 3) | funct3`; anything off the table
falls back to `default_format`. -/
def pretty_r_type (regname : Nat → String) (cmd : Nat) : String :=
  let suffix := regname (get_rd cmd) ++ ", " ++ regname (get_rs1 cmd) ++ ", " ++
    regname (get_rs2 cmd)
  let key := get_funct7 cmd <<< 3 ||| get_funct3 cmd
  if key = 0x00 <<< 3 ||| 0x0 then "add " ++ suffix
  else if key = 0x20 <<< 3 ||| 0x0 then "sub " ++ suffix
  else if key = 0x00 <<< 3 ||| 0x1 then "sll " ++ suffix
  else if key = 0x00 <<< 3 ||| 0x2 then "slt " ++ suffix
  else if key = 0x00 <<< 3 ||| 0x3 then "sltu " ++ suffix
  else if key = 0x00 <<< 3 ||| 0x4 then "xor " ++ suffix
  else if key = 0x00 <<< 3 ||| 0x5 then "srl " ++ suffix
  else if key = 0x20 <<< 3 ||| 0x5 then "sra " ++ suffix
  else if key = 0x00 <<< 3 ||| 0x6 then "or " ++ suffix
  else if key = 0x00 <<< 3 ||| 0x7 then "and " ++ suffix
  else default_format cmd

/-- Embedding of `pretty_i_type` (command.cpp): dispatch on `funct3`, with the shift
rows additionally checking `funct7`; `srai` prints the immediate masked
to the low five bits; anything else falls back to `default_format`. -/
def pretty_i_type (regname : Nat → String) (cmd : Nat) : String :=
  let imm := i_type_imm cmd
  let suffix := regname (get_rd cmd) ++ ", " ++ regname (get_rs1 cmd) ++ ", " ++
    toString imm
  let f3 := get_funct3 cmd
  if f3 = 0x0 then "addi " ++ suffix
  else if f3 = 0x2 then "slti " ++ suffix
  else if f3 = 0x3 then "sltiu " ++ suffix
  else if f3 = 0x4 then "xori " ++ suffix
  else if f3 = 0x6 then "ori " ++ suffix
  else if f3 = 0x7 then "andi " ++ suffix
  else if f3 = 0x1 then
    if get_funct7 cmd = 0x00 then "slli " ++ suffix else default_format cmd
  else if f3 = 0x5 then
    if get_funct7 cmd = 0x00 then "srli " ++ suffix
    else if get_funct7 cmd = 0x20 then
      "srai " ++ regname (get_rd cmd) ++ ", " ++ regname (get_rs1 cmd) ++ ", " ++
        toString (imm.emod 32).toNat
    else default_format cmd
  else default_format cmd

/-- Embedding of `pretty_s_type` (command.cpp). -/
def pretty_s_type (regname : Nat → String) (cmd : Nat) : String :=
  let suffix := regname (get_rs1 cmd) ++ ", " ++ regname (get_rs2 cmd) ++ ", " ++
    toString (s_type_imm cmd)
  let f3 := get_funct3 cmd
  if f3 = 0x2 then "sw " ++ suffix
  else if f3 = 0x1 then "sh " ++ suffix
  else if f3 = 0x0 then "sb " ++ suffix
  else default_format cmd

/-- Embedding of `pretty_l_type` (command.cpp); `l_type::get_imm` is the
I-format load offset in bits 31..20 (modelled from the spec's canonical
RV32I encodings). -/
def pretty_l_type (regname : Nat → String) (cmd : Nat) : String :=
  let suffix := regname (get_rd cmd) ++ ", " ++ regname (get_rs1 cmd) ++ ", " ++
    toString (i_type_imm cmd)
  let f3 := get_funct3 cmd
  if f3 = 0x0 then "lb " ++ suffix
  else if f3 = 0x1 then "lh " ++ suffix
  else if f3 = 0x2 then "lw " ++ suffix
  else if f3 = 0x4 then "lbu " ++ suffix
  else if f3 = 0x5 then "lhu " ++ suffix
  else default_format cmd

/-- Embedding of `pretty_b_type` (command.cpp). -/
def pretty_b_type (regname : Nat → String) (cmd : Nat) : String :=
  let suffix := regname (get_rs1 cmd) ++ ", " ++ regname (get_rs2 cmd) ++ ", " ++
    toString (b_type_imm cmd)
  let f3 := get_funct3 cmd
  if f3 = 0x0 then "beq " ++ suffix
  else if f3 = 0x1 then "bne " ++ suffix
  else if f3 = 0x4 then "blt " ++ suffix
  else if f3 = 0x5 then "bge " ++ suffix
  else if f3 = 0x6 then "bltu " ++ suffix
  else if f3 = 0x7 then "bgeu " ++ suffix
  else default_format cmd

/-- Embedding of `pretty_jal` (command.cpp): no funct field, always prints. -/
def pretty_jal (regname : Nat → String) (cmd : Nat) : String :=
  "jal " ++ regname (get_rd cmd) ++ ", " ++ toString (jal_imm cmd)

/-- Embedding of `pretty_jalr` (command.cpp): no funct check, always prints. -/
def pretty_jalr (regname : Nat → String) (cmd : Nat) : String :=
  "jalr " ++ regname (get_rd cmd) ++ ", " ++ regname (get_rs1 cmd) ++ ", " ++
    toString (i_type_imm cmd)

/-- Embedding of `pretty_lui` (command.cpp). -/
def pretty_lui (regname : Nat → String) (cmd : Nat) : String :=
  "lui " ++ regname (get_rd cmd) ++ ", " ++ toString (u_type_imm cmd)

/-- Embedding of `pretty_auipc` (command.cpp). -/
def pretty_auipc (regname : Nat → String) (cmd : Nat) : String :=
  "auipc " ++ regname (get_rd cmd) ++ ", " ++ toString (u_type_imm cmd)

/-- Embedding of `DebugManager::pretty_command` (command.cpp): dispatch on the opcode
field to the per-class pretty printer; an opcode outside the table falls
back to `default_format`.  The opcode constants are the canonical RV32I
ones (modelled from the spec, `riscv/command.h` not being visible). -/
def pretty_command (regname : Nat → String) (cmd : Nat) : String :=
  let op := get_opcode cmd
  if op = 0x33 then pretty_r_type regname cmd
  else if op = 0x13 then pretty_i_type regname cmd
  else if op = 0x23 then pretty_s_type regname cmd
  else if op = 0x03 then pretty_l_type regname cmd
  else if op = 0x63 then pretty_b_type regname cmd
  else if op = 0x6F then pretty_jal regname cmd
  else if op = 0x67 then pretty_jalr regname cmd
  else if op = 0x37 then pretty_lui regname cmd
  else if op = 0x17 then pretty_auipc regname cmd
  else default_format cmd

/-! ## Theorems -/

/-- C1, counterexample: a run aborted by a panic (for example the
`Time Limit Exceeded` panic) still makes `main` return exit code `0`,
because the `catch (dark::PanicError&)` block does nothing and control
falls through to `return 0`; the claimed non-zero exit code is wrong. -/
theorem main_exit_code_panic_is_zero :
    main_exit_code (.error ⟨"Time Limit Exceeded"⟩) = 0 := rfl

/-- C1, amended: the process exit code is `0` on normal termination and
also `0` whenever a panic or trap aborts the run, since `main` catches
the `PanicError` sentinel silently and returns `0` unconditionally. -/
theorem main_exit_code_always_zero (pipeline : Except PanicError Unit) :
    main_exit_code pipeline = 0 := by
  cases pipeline <;> rfl

/-- C5: on an instruction word matching no disassembler-table encoding
(opcode `0` here), `pretty_command` falls back to `default_format`, whose
format string `0x` followed by an alternate-form hex conversion prints
the `0x` prefix twice: the word `0` renders as `0x0x0`, not as `0x`
immediately followed by the hex digits (`0x0`). -/
theorem pretty_command_unknown_double_hex (regname : Nat → String) :
    pretty_command regname 0 = "0x0x0" ∧ "0x0x0" ≠ "0x" ++ cpp_hex_digits 0 := by
  refine ⟨rfl, by decide⟩

/-- C2: for a `PCREL_HI` immediate the evaluator returns
`(v - position) >> 12` with no `+0x800` rounding bias: with `v = 0x800`
and `position = 0` it yields `0`, while the biased formula of the claim
yields `1`; consequently the `PCREL_HI`/`PCREL_LO` pair cannot
reconstruct `v` when bit 11 of `v - position` is set. -/
theorem evaluate_pcrel_hi_missing_bias :
    evaluate [] [] 0 (.RelImmediate .PCREL_HI (.IntImmediate 0x800)) = .ok 0 ∧
    (0x800 - 0 + 0x800) >>> 12 = 1 ∧ (0 : Nat) ≠ 1 := by
  refine ⟨by simp [evaluate, sub64], by decide, by decide⟩

/-- C3, counterexample: for a `PCREL_LO` immediate the evaluator returns
`(v - position) & 0xFFF` without sign extension: with `v = 0x800` and
`position = 0` the result is the positive pattern `0x800`, not the
negative 32-bit pattern `0xFFFFF800` the claim requires. -/
theorem evaluate_pcrel_lo_not_sign_extended :
    evaluate [] [] 0 (.RelImmediate .PCREL_LO (.IntImmediate 0x800)) = .ok 0x800 ∧
    (0x800 : Nat) ≠ 0xFFFFF800 := by
  refine ⟨by simp [evaluate, sub64]; decide, by decide⟩

/-- C3, amended: for `Rel(PCREL_LO, inner)` at position `p`, with `v` the
evaluation of `inner`, the evaluator returns the low 12 bits of the
64-bit wrap-around difference `v - p` *zero-extended*: the result is
always below `0x1000`, so values in `[0x800, 0xFFF]` come back as
positive 32-bit patterns, not negative ones. -/
theorem evaluate_pcrel_lo_zero_extends (lt gt : SymbolTable) (p : Nat)
    (inner : ImmediateBase) (v : Nat) (hv : v < 2 ^ 32) (hp : p < 2 ^ 64)
    (h : evaluate lt gt p inner = .ok v) :
    evaluate lt gt p (.RelImmediate .PCREL_LO inner) =
      .ok ((2 ^ 64 + v - p) % 2 ^ 64 &&& 0xFFF) ∧
    (2 ^ 64 + v - p) % 2 ^ 64 &&& 0xFFF < 0x1000 := by
  constructor
  · simp [evaluate, h, sub64]
    congr 1
    omega
  · exact lt_of_le_of_lt Nat.and_le_right (by norm_num)

/-- Witness for the amended C3 theorem at `v = 0`, `p = 4`. -/
theorem evaluate_pcrel_lo_zero_extends_witness :
    evaluate [] [] 4 (.RelImmediate .PCREL_LO (.IntImmediate 0)) =
      .ok ((2 ^ 64 + 0 - 4) % 2 ^ 64 &&& 0xFFF) :=
  (evaluate_pcrel_lo_zero_extends [] [] 4 (.IntImmediate 0) 0 (by decide)
    (by decide) (by simp [evaluate])).1

/-- Loop invariant of `simulate_normal`: starting with `retired` already
retired and `timeout` left on the (non-saturated) counter, the loop (i)
retires at most `timeout` further instructions, (ii) reports
`Time Limit Exceeded` exactly when the counter was exhausted after
`timeout` further retirements and one more `advance` call still answered
`true`, and (iii) exits cleanly, without the timeout panic, as soon as an
`advance` call answers `false`. -/
theorem sim_loop_spec {S : Type} (adv : S → Bool × S)
    (exec : S → Except FailToInterpret S) :
    ∀ (timeout : Nat), timeout + 1 < 2 ^ 64 → ∀ (s : S) (retired : Nat),
      ((sim_loop adv exec s timeout retired).retired ≤ retired + timeout) ∧
      ((sim_loop adv exec s timeout retired).outcome = .tle ↔
        ((sim_loop adv exec s timeout retired).retired = retired + timeout ∧
         ∃ sT, free_steps adv exec s timeout = some sT ∧ (adv sT).1 = true)) ∧
      (∀ k, k ≤ timeout → ∀ sk, free_steps adv exec s k = some sk →
        (adv sk).1 = false →
        sim_loop adv exec s timeout retired = ⟨retired + k, .clean⟩) := by
  intro timeout
  induction timeout with
  | zero =>
    intro hT s retired
    rcases hadv : adv s with ⟨a, s'⟩
    cases a
    · have hres : sim_loop adv exec s 0 retired = ⟨retired, .clean⟩ := by
        norm_num [sim_loop, hadv, sim_epilogue]
      refine ⟨by simp [hres], ?_, ?_⟩
      · rw [hres]
        simp [free_steps, hadv]
      · intro k hk sk hfree hfalse
        interval_cases k
        simp only [free_steps, Option.some_inj] at hfree
        subst hfree
        simpa [hres] using rfl
    · have hres : sim_loop adv exec s 0 retired = ⟨retired, .tle⟩ := by
        norm_num [sim_loop, hadv, sim_epilogue]
      refine ⟨by simp [hres], ?_, ?_⟩
      · rw [hres]
        simp [free_steps, hadv]
      · intro k hk sk hfree hfalse
        interval_cases k
        simp only [free_steps, Option.some_inj] at hfree
        subst hfree
        rw [hadv] at hfalse
        simp at hfalse
  | succ t ih =>
    intro hT s retired
    rcases hadv : adv s with ⟨a, s'⟩
    cases a
    · have hres : sim_loop adv exec s (t + 1) retired = ⟨retired, .clean⟩ := by
        simp only [sim_loop, hadv, sim_epilogue]
        rw [if_neg (by omega)]
      refine ⟨by simp [hres], ?_, ?_⟩
      · rw [hres]
        simp [free_steps, hadv]
      · intro k hk sk hfree hfalse
        cases k with
        | zero =>
          simp only [free_steps, Option.some_inj] at hfree
          subst hfree
          simp [hres]
        | succ j =>
          simp only [free_steps] at hfree
          rw [hadv] at hfree
          simp at hfree
    · cases hexec : exec s' with
      | error e =>
        have hres : sim_loop adv exec s (t + 1) retired = ⟨retired, .trap e⟩ := by
          simp [sim_loop, hadv, hexec]
        refine ⟨by simp [hres], ?_, ?_⟩
        · rw [hres]
          simp only [show (SimResult.mk retired (.trap e)).outcome = .trap e from rfl]
          constructor
          · intro hcontra
            exact absurd hcontra (by simp)
          · rintro ⟨-, sT, hfree, -⟩
            simp only [free_steps] at hfree
            rw [hadv] at hfree
            simp [hexec] at hfree
        · intro k hk sk hfree hfalse
          cases k with
          | zero =>
            simp only [free_steps, Option.some_inj] at hfree
            subst hfree
            rw [hadv] at hfalse
            simp at hfalse
          | succ j =>
            simp only [free_steps] at hfree
            rw [hadv] at hfree
            simp [hexec] at hfree
      | ok s'' =>
        have hres : sim_loop adv exec s (t + 1) retired =
            sim_loop adv exec s'' t (retired + 1) := by
          conv_lhs => rw [sim_loop.eq_def]
          simp [hadv, hexec]
        have hstep : ∀ j, free_steps adv exec s (j + 1) = free_steps adv exec s'' j := by
          intro j
          simp [free_steps, hadv, hexec]
        obtain ⟨ih1, ih2, ih3⟩ := ih (by omega) s'' (retired + 1)
        refine ⟨?_, ?_, ?_⟩
        · rw [hres]
          omega
        · rw [hres, hstep t]
          have harith : retired + (t + 1) = retired + 1 + t := by omega
          rw [harith]
          exact ih2
        · intro k hk sk hfree hfalse
          cases k with
          | zero =>
            simp only [free_steps, Option.some_inj] at hfree
            subst hfree
            rw [hadv] at hfalse
            simp at hfalse
          | succ j =>
            rw [hstep j] at hfree
            have := ih3 j (by omega) sk hfree hfalse
            rw [hres, this]
            have harith : retired + 1 + j = retired + (j + 1) := by omega
            rw [harith]

/-- C4, counterexample: with the timeout set to `2 ^ 64 - 1` (the
largest `std::size_t` value) and a guest whose very first `advance()`
call answers `false`, the loop retires zero instructions and exits via
the short-circuit, yet the `timeout + 1 == 0` sentinel collides with the
undecremented counter and the run is reported as `Time Limit Exceeded`
instead of ending cleanly. -/
theorem simulate_normal_sentinel_collision :
    simulate_normal (fun s : Unit => (false, s)) (fun s => .ok s) () (2 ^ 64 - 1) =
      ⟨0, .tle⟩ ∧ SimOutcome.tle ≠ SimOutcome.clean := by
  constructor
  · norm_num [simulate_normal, sim_loop, sim_epilogue]
  · decide

/-- C4, amended: for every timeout `T` with `T + 1 < 2 ^ 64` (so
excluding the saturated counter value `2 ^ 64 - 1`), the loop retires at
most `T` instructions; it reports `Time Limit Exceeded` exactly when `T`
instructions were retired unhindered and the next `advance()` call still
answered `true`; and whenever an `advance()` call answers `false` after
`k` unhindered retirements the loop ends cleanly with `k` retired and no
timeout error. -/
theorem simulate_normal_timeout_spec {S : Type} (adv : S → Bool × S)
    (exec : S → Except FailToInterpret S) (s : S) (timeout : Nat)
    (hT : timeout + 1 < 2 ^ 64) :
    ((simulate_normal adv exec s timeout).retired ≤ timeout) ∧
    ((simulate_normal adv exec s timeout).outcome = .tle ↔
      ((simulate_normal adv exec s timeout).retired = timeout ∧
       ∃ sT, free_steps adv exec s timeout = some sT ∧ (adv sT).1 = true)) ∧
    (∀ k, k ≤ timeout → ∀ sk, free_steps adv exec s k = some sk →
      (adv sk).1 = false → simulate_normal adv exec s timeout = ⟨k, .clean⟩) := by
  have h := sim_loop_spec adv exec timeout hT s 0
  simpa [simulate_normal] using h

/-- Witness for the amended C4 theorem: a machine whose `advance` always
answers `true`, run with timeout `2`. -/
theorem simulate_normal_timeout_spec_witness :
    (2 : Nat) + 1 < 2 ^ 64 ∧
    (simulate_normal (fun s : Unit => (true, s)) (fun s => .ok s) () 2).retired ≤ 2 :=
  ⟨by decide,
   (simulate_normal_timeout_spec (fun s : Unit => (true, s)) (fun s => .ok s) () 2
     (by decide)).1⟩

/-- A `TreeImmediate` element list whose inner immediates all evaluate
successfully makes `evaluate_tree_go` fail the `runtime_assert` when the
carried operator state is already `END` and elements remain: the loop
still evaluates the next sub-immediate, then hits the
`default: runtime_assert(false)` arm. -/
theorem evaluate_tree_go_end_mid (lt gt : SymbolTable) (p : Nat)
    (rest : List (ImmediateBase × TreeOperator)) (vs : List Nat) (acc : Nat)
    (hne : rest ≠ [])
    (hv : rest.map (fun e => evaluate lt gt p e.1) = vs.map Except.ok) :
    evaluate_tree_go lt gt p rest .END acc = .error .assertFail := by
  cases rest with
  | nil => exact absurd rfl hne
  | cons hd tl =>
    cases vs with
    | nil => simp at hv
    | cons v vs' =>
      rcases hd with ⟨sub, op⟩
      simp only [List.map_cons, List.cons.injEq] at hv
      obtain ⟨h1, -⟩ := hv
      simp [evaluate_tree_go, h1]

/-- Invariant of the `evaluate_tree` loop, for any intermediate
accumulator `acc` and pending operator `op0 ≠ END`: when the element
operators are well-formed (`END` exactly on the last element) the loop
returns the left fold of the signed contributions, and when the last
element does not carry `END` the loop fails the `runtime_assert`. -/
theorem evaluate_tree_go_spec (lt gt : SymbolTable) (p : Nat) :
    ∀ (elems : List (ImmediateBase × TreeOperator)) (vs : List Nat)
      (op0 : TreeOperator) (acc : Nat), op0 ≠ .END →
      elems.map (fun e => evaluate lt gt p e.1) = vs.map Except.ok →
      (((elems.map Prod.snd).getLast? = some .END ∧
          .END ∉ (elems.map Prod.snd).dropLast) →
        evaluate_tree_go lt gt p elems op0 acc =
          .ok (((op0 :: (elems.map Prod.snd).dropLast).zip vs).foldl tree_step acc)) ∧
      ((elems.map Prod.snd).getLast? ≠ some .END →
        evaluate_tree_go lt gt p elems op0 acc = .error .assertFail) := by
  intro elems
  induction elems with
  | nil =>
    intro vs op0 acc hop0 hv
    refine ⟨?_, ?_⟩
    · rintro ⟨hlast, -⟩
      simp at hlast
    · intro _
      simp [evaluate_tree_go, hop0]
  | cons hd rest ih =>
    intro vs op0 acc hop0 hv
    rcases hd with ⟨sub, op⟩
    cases vs with
    | nil => simp at hv
    | cons v vs' =>
      simp only [List.map_cons, List.cons.injEq] at hv
      obtain ⟨h1, h2⟩ := hv
      have hgo : evaluate_tree_go lt gt p ((sub, op) :: rest) op0 acc =
          evaluate_tree_go lt gt p rest op (tree_step acc (op0, v)) := by
        cases op0 with
        | ADD => simp [evaluate_tree_go, h1, tree_step]
        | SUB => simp [evaluate_tree_go, h1, tree_step]
        | END => exact absurd rfl hop0
      cases rest with
      | nil =>
        have hvs' : vs' = [] := by simpa using h2.symm
        subst hvs'
        refine ⟨?_, ?_⟩
        · rintro ⟨hlast, -⟩
          simp only [List.map_cons, List.map_nil, List.getLast?_singleton,
            Option.some_inj] at hlast
          subst hlast
          rw [hgo]
          simp [evaluate_tree_go]
        · intro hlast
          simp only [List.map_cons, List.map_nil, List.getLast?_singleton,
            ne_eq, Option.some_inj] at hlast
          rw [hgo]
          simp [evaluate_tree_go, hlast]
      | cons r rs =>
        refine ⟨?_, ?_⟩
        · rintro ⟨hlast, hmem⟩
          simp only [List.map_cons, List.getLast?_cons_cons] at hlast
          simp only [List.map_cons, List.dropLast_cons₂, List.mem_cons,
            not_or] at hmem
          obtain ⟨hop_ne, hmem'⟩ := hmem
          have hop : op ≠ .END := fun hcontra => hop_ne hcontra.symm
          have := (ih vs' op (tree_step acc (op0, v)) hop h2).1
            ⟨by simpa using hlast, by simpa using hmem'⟩
          rw [hgo, this]
          simp [List.dropLast_cons₂]
        · intro hlast
          simp only [List.map_cons, List.getLast?_cons_cons] at hlast
          by_cases hop : op = .END
          · subst hop
            rw [hgo]
            exact evaluate_tree_go_end_mid lt gt p (r :: rs) vs'
              (tree_step acc (op0, v)) (by simp) h2
          · have := (ih vs' op (tree_step acc (op0, v)) hop h2).2
              (by simpa using hlast)
            rw [hgo, this]

/-- C6: evaluating a `Tree` immediate folds left-to-right from `0`: the
first element's operator is implicitly `ADD`, each element contributes
plus or minus the evaluation of its inner immediate according to the
operator *preceding* it, and the operator carried by the last element
must be `END` — otherwise the evaluation fails the `runtime_assert`. -/
theorem evaluate_tree_fold_spec (lt gt : SymbolTable) (p : Nat)
    (elems : List (ImmediateBase × TreeOperator)) (vs : List Nat)
    (hv : elems.map (fun e => evaluate lt gt p e.1) = vs.map Except.ok) :
    (((elems.map Prod.snd).getLast? = some .END ∧
        .END ∉ (elems.map Prod.snd).dropLast) →
      evaluate lt gt p (.TreeImmediate elems) =
        .ok (tree_fold (.ADD :: (elems.map Prod.snd).dropLast) vs)) ∧
    ((elems.map Prod.snd).getLast? ≠ some .END →
      evaluate lt gt p (.TreeImmediate elems) = .error .assertFail) := by
  have h := evaluate_tree_go_spec lt gt p elems vs .ADD 0 (by simp) hv
  simpa [evaluate, tree_fold] using h

/-- Witness for the C6 theorem: `0 + 5 - 3 = 2` for the tree
`[(Int 5, SUB), (Int 3, END)]` (the `SUB` carried by the first element
applies to the *second* element's contribution). -/
theorem evaluate_tree_fold_spec_witness :
    evaluate [] [] 0
      (.TreeImmediate [(.IntImmediate 5, .SUB), (.IntImmediate 3, .END)]) =
      .ok 2 := by
  have h := (evaluate_tree_fold_spec [] [] 0
    [(.IntImmediate 5, .SUB), (.IntImmediate 3, .END)] [5, 3]
    (by simp [evaluate])).1 (by decide)
  rw [h]
  rfl

/-- First-match association lookup returns the value of a key that is
present, provided the keys are pairwise distinct (as they are in the
`unordered_map` symbol tables). -/
theorem lookup_eq_some_of_mem_nodup :
    ∀ (t : SymbolTable) (s : String) (v : Nat),
      (s, v) ∈ t → (t.map Prod.fst).Nodup → t.lookup s = some v := by
  intro t
  induction t with
  | nil => intro s v hmem _; simp at hmem
  | cons hd tl ih =>
    intro s v hmem hnd
    rcases hd with ⟨a, b⟩
    simp only [List.map_cons, List.nodup_cons] at hnd
    obtain ⟨hna, hnd'⟩ := hnd
    rcases List.mem_cons.mp hmem with heq | htl
    · obtain ⟨rfl, rfl⟩ := Prod.mk.injEq .. ▸ heq
      simp [List.lookup]
    · have hne : (s == a) = false := by
        simp only [beq_eq_false_iff_ne, ne_eq]
        rintro rfl
        exact hna (List.mem_map.mpr ⟨(s, v), htl, rfl⟩)
      simp only [List.lookup, hne]
      exact ih s v htl hnd'

/-- First-match association lookup misses exactly on absent keys. -/
theorem lookup_eq_none_of_not_mem :
    ∀ (t : SymbolTable) (s : String),
      s ∉ t.map Prod.fst → t.lookup s = none := by
  intro t
  induction t with
  | nil => intro s _; rfl
  | cons hd tl ih =>
    intro s hnm
    rcases hd with ⟨a, b⟩
    simp only [List.map_cons, List.mem_cons, not_or] at hnm
    obtain ⟨hne, hnm'⟩ := hnm
    have hba : (s == a) = false := by simpa using hne
    simp only [List.lookup, hba]
    exact ih s hnm'

/-- C7: `Sym(s)` resolution order — the current file's local table is
consulted first; the global table is consulted only when `s` is absent
from the local table; and when `s` is in neither table the link fails
with the unknown-symbol panic. -/
theorem get_symbol_position_order (lt gt : SymbolTable) (s : String) :
    (∀ v, (s, v) ∈ lt → (lt.map Prod.fst).Nodup →
      get_symbol_position lt gt s = .ok v) ∧
    (s ∉ lt.map Prod.fst → ∀ v, (s, v) ∈ gt → (gt.map Prod.fst).Nodup →
      get_symbol_position lt gt s = .ok v) ∧
    (s ∉ lt.map Prod.fst → s ∉ gt.map Prod.fst →
      get_symbol_position lt gt s = .error (.unknownSymbol s)) := by
  refine ⟨?_, ?_, ?_⟩
  · intro v hmem hnd
    simp [get_symbol_position, lookup_eq_some_of_mem_nodup lt s v hmem hnd]
  · intro hnl v hmem hnd
    simp [get_symbol_position, lookup_eq_none_of_not_mem lt s hnl,
      lookup_eq_some_of_mem_nodup gt s v hmem hnd]
  · intro hnl hng
    simp [get_symbol_position, lookup_eq_none_of_not_mem lt s hnl,
      lookup_eq_none_of_not_mem gt s hng]

/-- Witness for the C7 theorem: `x` bound to `1` locally shadows the
global binding of `x` to `2`. -/
theorem get_symbol_position_order_witness :
    get_symbol_position [("x", 1)] [("x", 2)] "x" = .ok 1 :=
  (get_symbol_position_order [("x", 1)] [("x", 2)] "x").1 1 (by decide) (by decide)

/-- C9: when the interpreter constructor succeeds after linking, each
adjacent section pair in the canonical order text, data, rodata, bss
satisfies `start + storage size ≤ start of the next`; and any violation
of that order makes `check_no_overlap` fail its `runtime_assert`. -/
theorem interpreter_construct_layout (result : LinkResult) :
    (interpreter_construct result = .ok () →
      result.text.start + result.text.storage.length ≤ result.data.start ∧
      result.data.start + result.data.storage.length ≤ result.rodata.start ∧
      result.rodata.start + result.rodata.storage.length ≤ result.bss.start) ∧
    (¬ (result.text.start + result.text.storage.length ≤ result.data.start ∧
        result.data.start + result.data.storage.length ≤ result.rodata.start ∧
        result.rodata.start + result.rodata.storage.length ≤ result.bss.start) →
      check_no_overlap result = .error .assertFail) := by
  constructor
  · intro h
    by_cases hm : result.position_table.lookup "main" = none
    · rw [interpreter_construct, if_pos hm] at h
      exact absurd h (by simp)
    · rw [interpreter_construct, if_neg hm] at h
      simp only [check_no_overlap, get_start_end] at h
      split at h
      · assumption
      · exact absurd h (by simp)
  · intro hviol
    simp only [check_no_overlap, get_start_end]
    rw [if_neg hviol]

/-- Witness for the C9 theorem: a concrete linked layout
`text [0,4), data [4,5), rodata [8,8), bss [8,9)` with `main` present. -/
theorem interpreter_construct_layout_witness :
    (0 : Nat) + 4 ≤ 4 ∧ (4 : Nat) + 1 ≤ 8 ∧ (8 : Nat) + 0 ≤ 8 :=
  (interpreter_construct_layout
    ⟨⟨0, [1, 2, 3, 4]⟩, ⟨4, [5]⟩, ⟨8, []⟩, ⟨8, [0]⟩, [("main", 0)]⟩).1 rfl

/-- C10: the assembler accepts the empty string as a label name.  On a
line whose first `:` is at index `0` (so it precedes any `"` and the
text before it is empty), `is_valid_label` holds vacuously for the empty
label, `start_with_label` never rejects the label itself — it either
returns the empty label definition or complains about a token *after*
the label — and when the rest of the line holds no token it returns the
empty label. -/
theorem start_with_label_empty_accepted (str : List Char)
    (h : find_first_of ':' str = some 0) :
    is_valid_label [] = true ∧
    (start_with_label str = .ok (some []) ∨
     start_with_label str = .error (.failToParse "Unexpected token after label")) ∧
    (contain_no_token (str.drop 1) = true → start_with_label str = .ok (some [])) := by
  obtain ⟨cs, rfl⟩ : ∃ cs, str = ':' :: cs := by
    cases str with
    | nil => simp [find_first_of] at h
    | cons c cs =>
      by_cases hc : c = ':'
      · exact ⟨cs, by rw [hc]⟩
      · rw [find_first_of, if_neg hc] at h
        obtain ⟨a, -, ha⟩ := Option.map_eq_some'.mp h
        omega
  refine ⟨rfl, ?_, ?_⟩
  · by_cases hct : contain_no_token cs = true
    · left
      simp only [start_with_label]
      rw [h]
      rcases hq : find_first_of '\"' (':' :: cs) with - | p1
      · simp [is_valid_label, hct]
      · have hp1 : 0 < p1 := by
          rw [find_first_of, if_neg (by decide)] at hq
          obtain ⟨a, -, ha⟩ := Option.map_eq_some'.mp hq
          omega
        simp [is_valid_label, hct, hp1]
    · right
      replace hct : contain_no_token cs = false := by simpa using hct
      simp only [start_with_label]
      rw [h]
      rcases hq : find_first_of '\"' (':' :: cs) with - | p1
      · simp [is_valid_label, hct]
      · have hp1 : 0 < p1 := by
          rw [find_first_of, if_neg (by decide)] at hq
          obtain ⟨a, -, ha⟩ := Option.map_eq_some'.mp hq
          omega
        simp [is_valid_label, hct, hp1]
  · intro hct
    replace hct : contain_no_token cs = true := by simpa using hct
    simp only [start_with_label]
    rw [h]
    rcases hq : find_first_of '\"' (':' :: cs) with - | p1
    · simp [is_valid_label, hct]
    · have hp1 : 0 < p1 := by
        rw [find_first_of, if_neg (by decide)] at hq
        obtain ⟨a, -, ha⟩ := Option.map_eq_some'.mp hq
        omega
      simp [is_valid_label, hct, hp1]

/-- Witness for the C10 theorem: the line `":"` defines the empty
label. -/
theorem start_with_label_empty_accepted_witness :
    start_with_label [':'] = .ok (some []) :=
  (start_with_label_empty_accepted [':'] (by decide)).2.2 (by decide)

/-- Front-trimming never lengthens a string. -/
theorem remove_front_length_le :
    ∀ s : List Char, (remove_front_whitespace s).length ≤ s.length := by
  intro s
  induction s with
  | nil => simp [remove_front_whitespace]
  | cons c cs ih =>
    by_cases hc : cpp_isspace c
    · simp only [remove_front_whitespace, hc, if_true]
      exact le_trans ih (by simp)
    · simp [remove_front_whitespace, hc]

/-- Front-trimming is idempotent. -/
theorem remove_front_idem :
    ∀ s : List Char,
      remove_front_whitespace (remove_front_whitespace s) = remove_front_whitespace s := by
  intro s
  induction s with
  | nil => rfl
  | cons c cs ih =>
    by_cases hc : cpp_isspace c
    · simp only [remove_front_whitespace, hc, if_true]
      exact ih
    · simp [remove_front_whitespace, hc]

/-- A front-trimmed non-empty string starts with a non-space
character. -/
theorem head_not_space_of_front_trimmed (c : Char) (cs : List Char)
    (h : remove_front_whitespace (c :: cs) = c :: cs) : cpp_isspace c = false := by
  by_contra hc
  simp only [Bool.not_eq_false] at hc
  rw [remove_front_whitespace, if_pos hc] at h
  have hlen := remove_front_length_le cs
  rw [h] at hlen
  simp at hlen

/-- Any prefix of a front-trimmed string is front-trimmed. -/
theorem prefix_of_front_trimmed (u v : List Char)
    (h : remove_front_whitespace u = u) (hp : v <+: u) :
    remove_front_whitespace v = v := by
  cases v with
  | nil => rfl
  | cons b bs =>
    obtain ⟨t, ht⟩ := hp
    subst ht
    have hb : cpp_isspace b = false := head_not_space_of_front_trimmed b (bs ++ t) h
    rw [remove_front_whitespace, if_neg (by simp [hb])]

/-- Back-trimming yields a prefix of its argument. -/
theorem remove_back_prefix_self : ∀ s : List Char, remove_back_whitespace s <+: s := by
  intro s
  induction s with
  | nil => simp [remove_back_whitespace]
  | cons c cs ih =>
    rcases hr : remove_back_whitespace cs with - | ⟨d, ds⟩
    · simp only [remove_back_whitespace, hr]
      by_cases hc : cpp_isspace c
      · simp [hc]
      · simp [hc]
    · simp only [remove_back_whitespace, hr]
      rw [hr] at ih
      obtain ⟨t, ht⟩ := ih
      exact ⟨t, by rw [List.cons_append, ht]⟩

/-- Unfolding equation of `remove_back_whitespace` on a non-empty
string. -/
theorem remove_back_cons (c : Char) (cs : List Char) :
    remove_back_whitespace (c :: cs) =
      match remove_back_whitespace cs with
      | [] => if cpp_isspace c then [] else [c]
      | r => c :: r := rfl

/-- Back-trimming is idempotent. -/
theorem remove_back_idem :
    ∀ s : List Char,
      remove_back_whitespace (remove_back_whitespace s) = remove_back_whitespace s := by
  intro s
  induction s with
  | nil => rfl
  | cons c cs ih =>
    rcases hr : remove_back_whitespace cs with - | ⟨d, ds⟩
    · rw [remove_back_cons, hr]
      by_cases hc : cpp_isspace c
      · rw [if_pos hc]
        rfl
      · rw [if_neg hc]
        simp [remove_back_whitespace, hc]
    · rw [hr] at ih
      rw [remove_back_cons, hr]
      show remove_back_whitespace (c :: d :: ds) = c :: d :: ds
      rw [remove_back_cons, ih]

/-- Front-trimming only removes whitespace, so it preserves the number
of commas. -/
theorem count_comma_remove_front :
    ∀ s : List Char, (remove_front_whitespace s).count ',' = s.count ',' := by
  intro s
  induction s with
  | nil => rfl
  | cons c cs ih =>
    by_cases hc : cpp_isspace c
    · have hcne : c ≠ ',' := by
        rintro rfl
        simp [cpp_isspace] at hc
      simp only [remove_front_whitespace, hc, if_true]
      rw [ih, List.count_cons_of_ne (by simpa using (Ne.symm hcne))]
    · simp [remove_front_whitespace, hc]

/-- A string in which `find_first_of` sees no comma contains none. -/
theorem count_comma_of_find_none :
    ∀ s : List Char, find_first_of ',' s = none → s.count ',' = 0 := by
  intro s
  induction s with
  | nil => intro _; rfl
  | cons c cs ih =>
    intro h
    by_cases hc : c = ','
    · rw [find_first_of, if_pos hc] at h
      cases h
    · rw [find_first_of, if_neg hc] at h
      rw [List.count_cons_of_ne (by simpa using (Ne.symm hc))]
      exact ih (by simpa using h)

/-- Cutting a string at the first comma found by `find_first_of` removes
exactly one comma. -/
theorem count_comma_split :
    ∀ (s : List Char) (pos : Nat), find_first_of ',' s = some pos →
      s.count ',' = (s.drop (pos + 1)).count ',' + 1 := by
  intro s
  induction s with
  | nil => intro pos h; cases h
  | cons c cs ih =>
    intro pos h
    by_cases hc : c = ','
    · rw [find_first_of, if_pos hc] at h
      obtain rfl : (0 : Nat) = pos := by simpa using h
      subst hc
      simp [List.count_cons]
    · rw [find_first_of, if_neg hc] at h
      obtain ⟨q, hq, rfl⟩ := Option.map_eq_some'.mp h
      rw [List.count_cons_of_ne (by simpa using (Ne.symm hc))]
      rw [List.drop_succ_cons]
      exact ih q hq

/-- The cut made by `find_first_of` at the first comma coincides with
the `takeWhile`/`dropWhile` description of the piece before the comma
and of the rest after it. -/
theorem find_first_of_comma_take_drop :
    ∀ (s : List Char) (pos : Nat), find_first_of ',' s = some pos →
      s.take pos = s.takeWhile (fun c => c ≠ ',') ∧
      s.drop (pos + 1) = (s.dropWhile (fun c => c ≠ ',')).drop 1 := by
  intro s
  induction s with
  | nil => intro pos h; cases h
  | cons c cs ih =>
    intro pos h
    by_cases hc : c = ','
    · rw [find_first_of, if_pos hc] at h
      obtain rfl : (0 : Nat) = pos := by simpa using h
      subst hc
      constructor
      · simp [List.takeWhile_cons]
      · simp [List.dropWhile_cons]
    · rw [find_first_of, if_neg hc] at h
      obtain ⟨q, hq, rfl⟩ := Option.map_eq_some'.mp h
      obtain ⟨iht, ihd⟩ := ih q hq
      constructor
      · simp [List.takeWhile_cons, hc, iht]
      · simp [List.dropWhile_cons, hc, ihd]

/-- Invariant of the `split_command` comma loop: on a front-trimmed
string, cutting `slots` commas fails with `Too few arguments` when fewer
commas remain, and otherwise returns exactly the `slots + 1`
comma-delimited pieces described by `comma_tokens`, each free of leading
and trailing whitespace. -/
theorem split_command_go_spec :
    ∀ (slots : Nat) (s : List Char), remove_front_whitespace s = s →
      (s.count ',' < slots →
        split_command_go slots s = .error (.failToParse "Too few arguments")) ∧
      (slots ≤ s.count ',' →
        split_command_go slots s = .ok (comma_tokens slots s) ∧
        (comma_tokens slots s).length = slots + 1 ∧
        ∀ t ∈ comma_tokens slots s,
          remove_front_whitespace t = t ∧ remove_back_whitespace t = t) := by
  intro slots
  induction slots with
  | zero =>
    intro s hs
    refine ⟨fun h => absurd h (by omega), fun _ => ⟨rfl, rfl, ?_⟩⟩
    intro t ht
    simp only [comma_tokens, List.mem_singleton] at ht
    subst ht
    exact ⟨prefix_of_front_trimmed s _ hs (remove_back_prefix_self s), remove_back_idem s⟩
  | succ k ih =>
    intro s hs
    rcases hf : find_first_of ',' s with - | pos
    · have hc0 : s.count ',' = 0 := count_comma_of_find_none s hf
      refine ⟨fun _ => by simp [split_command_go, hf], fun hle => absurd hle (by omega)⟩
    · have hcnt : s.count ',' = (s.drop (pos + 1)).count ',' + 1 :=
        count_comma_split s pos hf
      obtain ⟨htake, hdrop⟩ := find_first_of_comma_take_drop s pos hf
      have hrest_trim :
          remove_front_whitespace
            (remove_front_whitespace (s.drop (pos + 1))) =
            remove_front_whitespace (s.drop (pos + 1)) := remove_front_idem _
      have hrest_cnt :
          (remove_front_whitespace (s.drop (pos + 1))).count ',' =
            (s.drop (pos + 1)).count ',' := count_comma_remove_front _
      have hct : comma_tokens (k + 1) s =
          remove_back_whitespace (s.take pos) ::
            comma_tokens k (remove_front_whitespace (s.drop (pos + 1))) := by
        simp only [comma_tokens]
        rw [← htake, ← hdrop]
      obtain ⟨ihe, iho⟩ := ih (remove_front_whitespace (s.drop (pos + 1))) hrest_trim
      refine ⟨fun hlt => ?_, fun hle => ?_⟩
      · have hlt' : (remove_front_whitespace (s.drop (pos + 1))).count ',' < k := by
          omega
        simp [split_command_go, hf, ihe hlt']
      · have hle' : k ≤ (remove_front_whitespace (s.drop (pos + 1))).count ',' := by
          omega
        obtain ⟨hok, hlen, htrim⟩ := iho hle'
        refine ⟨?_, ?_, ?_⟩
        · rw [hct]
          simp [split_command_go, hf, hok]
        · rw [hct]
          simp [hlen]
        · rw [hct]
          intro t ht
          rcases List.mem_cons.mp ht with rfl | htl
          · exact ⟨prefix_of_front_trimmed s _ hs
              ((remove_back_prefix_self _).trans
                ⟨s.drop pos, List.take_append_drop pos s⟩),
              remove_back_idem _⟩
          · exact htrim t htl

/-- C8, counterexample: `split_command<1>` on an empty remainder does not
raise `FailToParse`; it returns the empty string as its single token. -/
theorem split_command_one_empty_no_error :
    split_command 1 [] = .ok [[]] ∧
    ∀ e : AsmError, split_command 1 [] ≠ .error e := by
  refine ⟨rfl, fun e h => ?_⟩
  exact Except.noConfusion ((rfl : split_command 1 ([] : List Char) = .ok [[]]).symm.trans h)

/-- C8, amended: `split_command<N>` returns exactly `N` comma-separated
tokens with surrounding whitespace stripped: for `N ≥ 2` the tokens are
the trimmed pieces before each of the first `N - 1` commas of the
comment-stripped remainder followed by the trimmed rest after the
`(N - 1)`-th comma, and fewer than `N - 1` commas raise `FailToParse`
(`Too few arguments`); in the `N = 1` case the whole (possibly empty)
trimmed remainder is always the single token and no error is raised;
`N = 0` raises `FailToParse` unless the remainder holds no token.  A
remainder containing `"` raises `FailToParse` for every `N ≥ 1`, proved
alongside so the characterization covers every remainder. -/
theorem split_command_spec (str : List Char) :
    (contain_no_token str = true → split_command 0 str = .ok []) ∧
    (contain_no_token str = false →
      split_command 0 str = .error (.failToParse "")) ∧
    ('\"' ∈ str → ∀ n, 1 ≤ n → split_command n str = .error (.failToParse "")) ∧
    ('\"' ∉ str → split_command 1 str =
      .ok [remove_back_whitespace (remove_front_whitespace
        (str.takeWhile (fun c => c ≠ '#')))]) ∧
    ('\"' ∉ str → ∀ n, 2 ≤ n →
      ((remove_front_whitespace (str.takeWhile (fun c => c ≠ '#'))).count ',' + 1 < n →
        split_command n str = .error (.failToParse "Too few arguments")) ∧
      (n ≤ (remove_front_whitespace (str.takeWhile (fun c => c ≠ '#'))).count ',' + 1 →
        split_command n str =
          .ok (comma_tokens (n - 1)
            (remove_front_whitespace (str.takeWhile (fun c => c ≠ '#')))) ∧
        (comma_tokens (n - 1)
            (remove_front_whitespace (str.takeWhile (fun c => c ≠ '#')))).length = n ∧
        ∀ t ∈ comma_tokens (n - 1)
            (remove_front_whitespace (str.takeWhile (fun c => c ≠ '#'))),
          remove_front_whitespace t = t ∧ remove_back_whitespace t = t)) := by
  refine ⟨?_, ?_, ?_, ?_, ?_⟩
  · intro hct
    simp [split_command, hct]
  · intro hct
    simp [split_command, hct]
  · intro hq n hn
    have hcomment : remove_comments_when_no_string str = .error (.failToParse "") := by
      simp [remove_comments_when_no_string, hq]
    obtain ⟨k, rfl⟩ : ∃ k, n = k + 1 := ⟨n - 1, by omega⟩
    rcases k with - | m
    · simp [split_command, hcomment]
    · simp [split_command, hcomment]
  · intro hq
    have hcomment : remove_comments_when_no_string str =
        .ok (str.takeWhile (fun c => c ≠ '#')) := by
      simp [remove_comments_when_no_string, hq]
    simp [split_command, hcomment]
  · intro hq n hn
    have hcomment : remove_comments_when_no_string str =
        .ok (str.takeWhile (fun c => c ≠ '#')) := by
      simp [remove_comments_when_no_string, hq]
    obtain ⟨m, rfl⟩ : ∃ m, n = m + 2 := ⟨n - 2, by omega⟩
    have hsub : m + 2 - 1 = m + 1 := by omega
    rw [hsub]
    obtain ⟨hse, hso⟩ := split_command_go_spec (m + 1)
      (remove_front_whitespace (str.takeWhile (fun c => c ≠ '#')))
      (remove_front_idem _)
    refine ⟨fun hlt => ?_, fun hle => ?_⟩
    · have h1 : (remove_front_whitespace (str.takeWhile (fun c => c ≠ '#'))).count ',' <
          m + 1 := by omega
      simp only [split_command, hcomment]
      exact hse h1
    · have h1 : m + 1 ≤
          (remove_front_whitespace (str.takeWhile (fun c => c ≠ '#'))).count ',' := by
        omega
      obtain ⟨hok, hlen, htrim⟩ := hso h1
      refine ⟨?_, by omega, htrim⟩
      simp only [split_command, hcomment]
      exact hok

/-- Witness for the amended C8 theorem: `split_command<2>` on `"a,b"`
returns the two comma-delimited tokens. -/
theorem split_command_spec_witness :
    split_command 2 ['a', ',', 'b'] =
      .ok (comma_tokens (2 - 1) (remove_front_whitespace
        (['a', ',', 'b'].takeWhile (fun c => c ≠ '#')))) :=
  (((split_command_spec ['a', ',', 'b']).2.2.2.2 (by decide) 2 (by decide)).2
    (by decide)).1

end REIMU
